import Mathlib

/-!
Shallow embedding of the `bluetooth-route-timer` passage-detection engine
(`route.py`, `route_timer.py`, `scanner.py`).

Modelling conventions:
* `datetime` timestamps are integers (`Timestamp := Int`); differences of
  timestamps (`total_seconds()`) are integer differences.
* RSSI strengths are Python floats; they are embedded as an arbitrary
  linearly ordered additive commutative group `K` (instantiated at `Int`
  in concrete witnesses).  Every operation the code performs on strengths
  (addition, subtraction, absolute value, comparison) is available in `K`.
* Python `dict` is an insertion-ordered association list: writing to an
  existing key overwrites the value in place, writing a fresh key appends.
* Python `max(xs, key=f)` / `min(xs, key=f)` return the first element of
  the iteration attaining the extreme value; they are embedded as folds
  that replace the current best only on a strict improvement.
* Python object identity of `Sensor`s is modelled by their MAC address:
  the mutation `sensor.add_rssi(...)` performed by the scan loop on the
  object obtained from `get_mac_to_sensor_lookup` is modelled by updating
  every sensor of the route carrying that address (identical to the
  source's aliasing semantics when addresses identify sensors, which is
  what keying the lookup dictionary by address assumes).
-/

namespace BRT

abbrev Timestamp := Int

/-- `route_timer.ABSOLUTE_END_TIMER_DURATION_SEC`. -/
def ABSOLUTE_END_TIMER_DURATION_SEC : Int := 30

/-- `route_timer.SCAN_END_TIMER_DURATION_SEC`. -/
def SCAN_END_TIMER_DURATION_SEC : Int := 15

/-! ### Python `dict` as an insertion-ordered association list -/

section Dict

variable {κ ν : Type} [DecidableEq κ]

/-- `d[k] = v` on a Python dict: overwrite in place, else append. -/
def dictInsert (k : κ) (v : ν) : List (κ × ν) → List (κ × ν)
  | [] => [(k, v)]
  | (k0, v0) :: rest =>
      if k0 = k then (k, v) :: rest else (k0, v0) :: dictInsert k v rest

/-- `d.keys()` in iteration (insertion) order. -/
def dictKeys (d : List (κ × ν)) : List κ := d.map Prod.fst

/-- `d.get(k)`: the value stored at `k`, if any. -/
def dictFind? : List (κ × ν) → κ → Option ν
  | [], _ => none
  | (k0, v0) :: rest, k => if k0 = k then some v0 else dictFind? rest k

/-- `d[k]` for a key known to be present; the default is never reached at
use sites (Python would raise `KeyError` off-domain). -/
def dictGet (d : List (κ × ν)) (k : κ) (dflt : ν) : ν :=
  (dictFind? d k).getD dflt

end Dict

/-! ### Python `max(xs, key=f)` / `min(xs, key=f)` -/

section MinMax

variable {K : Type} [LinearOrder K] {α : Type}

/-- `max(l, key=f)`: first element attaining the maximum of `f`. -/
def maxByKey (f : α → K) : List α → Option α
  | [] => none
  | x :: xs => some (xs.foldl (fun best y => if f y > f best then y else best) x)

/-- `min(l, key=f)`: first element attaining the minimum of `f`. -/
def minByKey (f : α → K) : List α → Option α
  | [] => none
  | x :: xs => some (xs.foldl (fun best y => if f y < f best then y else best) x)

end MinMax

/-! ### Data model (`route.py`) -/

/-- `route.PointType`. -/
inductive PointType where
  | START
  | CHECKPOINT
  | END
deriving DecidableEq

/-- `route.Sensor`: name, MAC address, timestamp-keyed RSSI history. -/
structure Sensor (K : Type) where
  name : String
  address : String
  rssi_history : List (Timestamp × K) := []
deriving DecidableEq

/-- `Sensor.add_rssi` (the scan loop always passes an explicit timestamp,
so the `timestamp or datetime.now()` defaulting never fires there). -/
def Sensor.add_rssi {K : Type} (s : Sensor K) (rssi : K) (timestamp : Timestamp) :
    Sensor K :=
  { s with rssi_history := dictInsert timestamp rssi s.rssi_history }

/-- `Sensor.has_readings`. -/
def Sensor.has_readings {K : Type} (s : Sensor K) : Bool :=
  !s.rssi_history.isEmpty

/-- `route.SignalReading`. -/
structure SignalReading (K : Type) where
  timestamp : Timestamp
  strength : K
deriving DecidableEq

/-- `route.RoutePoint` with its two concrete dataclasses
`RoutePointSingleSensor` and `RoutePointDualSensor`. -/
inductive RoutePoint (K : Type) where
  | single (type : PointType) (name : String) (sensor : Sensor K)
  | dual (type : PointType) (name : String) (sensor1 sensor2 : Sensor K)
deriving DecidableEq

section DualLocals

variable {K : Type} [LinearOrderedAddCommGroup K]

/-- The local `common_times` of `RoutePointDualSensor.get_strongest_signal`:
`set(keys1) & set(keys2)`.  The set is modelled in `sensor1` insertion
order (Python's hash order is unspecified; every theorem proved below is
independent of the order of `common_times`). -/
def commonTimes (sensor1 sensor2 : Sensor K) : List Timestamp :=
  (dictKeys sensor1.rssi_history).filter
    (fun t => decide (t ∈ dictKeys sensor2.rssi_history))

/-- The local combined-strength key
`sensor1.rssi_history[t] + sensor2.rssi_history[t]`. -/
def combinedStrength (sensor1 sensor2 : Sensor K) (t : Timestamp) : K :=
  dictGet sensor1.rssi_history t 0 + dictGet sensor2.rssi_history t 0

/-- The local balance key
`abs(sensor1.rssi_history[t] - sensor2.rssi_history[t])`. -/
def signalBalance (sensor1 sensor2 : Sensor K) (t : Timestamp) : K :=
  |dictGet sensor1.rssi_history t 0 - dictGet sensor2.rssi_history t 0|

/-- The tie-break of `RoutePointDualSensor.get_strongest_signal`:
`strongest_times[0]` when it is a singleton, otherwise
`min(strongest_times, key=balance)`.  `strongest_times` is never empty at
the call site, so the default is never reached. -/
def tieBreak (sensor1 sensor2 : Sensor K) (strongest_times : List Timestamp)
    (strongest_combined : Timestamp) : Timestamp :=
  match strongest_times with
  | [t] => t
  | _ => (minByKey (signalBalance sensor1 sensor2) strongest_times).getD
      strongest_combined

end DualLocals

namespace RoutePoint

variable {K : Type} [LinearOrderedAddCommGroup K]

/-- `RoutePointSingleSensor.get_strongest_signal` /
`RoutePointDualSensor.get_strongest_signal`. -/
def get_strongest_signal : RoutePoint K → Option (SignalReading K)
  | .single _ _ sensor =>
      if sensor.has_readings = false then none
      else
        match maxByKey (fun t => dictGet sensor.rssi_history t 0)
            (dictKeys sensor.rssi_history) with
        | none => none
        | some strongest_time =>
            some ⟨strongest_time, dictGet sensor.rssi_history strongest_time 0⟩
  | .dual _ _ sensor1 sensor2 =>
      match maxByKey (combinedStrength sensor1 sensor2)
          (commonTimes sensor1 sensor2) with
      | none => none   -- `if not common_times: return None`
      | some strongest_combined =>
          -- timestamps attaining `max_combined_strength`
          let strongest_times := (commonTimes sensor1 sensor2).filter
            (fun t => decide (combinedStrength sensor1 sensor2 t =
              combinedStrength sensor1 sensor2 strongest_combined))
          let strongest_time :=
            tieBreak sensor1 sensor2 strongest_times strongest_combined
          some ⟨strongest_time, combinedStrength sensor1 sensor2 strongest_time⟩

/-- `RoutePoint.has_sensor` (dataclass structural equality, as generated
by `@dataclass` for `Sensor`). -/
def has_sensor [DecidableEq K] : RoutePoint K → Sensor K → Bool
  | .single _ _ sensor, s => decide (sensor = s)
  | .dual _ _ sensor1 sensor2, s => decide (s = sensor1) || decide (s = sensor2)

end RoutePoint

/-- `route.RoutePassage`. -/
structure RoutePassage (K : Type) where
  point : RoutePoint K
  timestamp : Timestamp
  signal_strength : K
deriving DecidableEq

/-- `route.RouteTime` (`duration_seconds = (end - start).total_seconds()`). -/
structure RouteTime where
  start_time : Timestamp
  end_time : Timestamp
  duration_seconds : Int
deriving DecidableEq

/-- Comparison key used by `sorted(passages, key=lambda x: x.timestamp)`. -/
def passageLE {K : Type} (a b : RoutePassage K) : Prop :=
  a.timestamp ≤ b.timestamp

instance {K : Type} : DecidableRel (passageLE (K := K)) :=
  fun a b => Int.decLe a.timestamp b.timestamp

instance {K : Type} : IsTotal (RoutePassage K) passageLE :=
  ⟨fun a b => le_total a.timestamp b.timestamp⟩

instance {K : Type} : IsTrans (RoutePassage K) passageLE :=
  ⟨fun _ _ _ h h2 => le_trans h h2⟩

/-- `route.Route`. -/
structure Route (K : Type) where
  name : String
  start : RoutePoint K
  «end» : RoutePoint K
  checkpoints : List (RoutePoint K) := []
deriving DecidableEq

namespace Route

variable {K : Type} [LinearOrderedAddCommGroup K]

/-- `Route.get_all_points`. -/
def get_all_points (r : Route K) : List (RoutePoint K) :=
  [r.start] ++ r.checkpoints ++ [r.«end»]

/-- The local `passages` list of `Route.get_point_passages`: one entry
per route point whose best signal exists, in declared point order. -/
def collectPassages (r : Route K) : List (RoutePassage K) :=
  r.get_all_points.filterMap (fun point =>
    match point.get_strongest_signal with
    | some signal => some ⟨point, signal.timestamp, signal.strength⟩
    | none => none)

/-- `Route.get_point_passages`: collect the points that currently have a
best signal, then `sorted(..., key=lambda x: x.timestamp)` (a stable sort,
embedded as insertion sort). -/
def get_point_passages (r : Route K) : List (RoutePassage K) :=
  List.insertionSort passageLE r.collectPassages

/-- `Route.is_end_sensor`. -/
def is_end_sensor (r : Route K) (sensor : Sensor K) : Bool :=
  r.«end».has_sensor sensor

/-- `Route.get_total_time`. -/
def get_total_time (r : Route K) : Option RouteTime :=
  match r.start.get_strongest_signal, r.«end».get_strongest_signal with
  | some start_signal, some end_signal =>
      some ⟨start_signal.timestamp, end_signal.timestamp,
        end_signal.timestamp - start_signal.timestamp⟩
  | _, _ => none

/-- `Route.get_mac_to_sensor_lookup`: a dict from MAC address to sensor,
built by walking all points; later points overwrite earlier ones. -/
def get_mac_to_sensor_lookup (r : Route K) : List (String × Sensor K) :=
  r.get_all_points.foldl (fun lookup point =>
    match point with
    | .dual _ _ s1 s2 => dictInsert s2.address s2 (dictInsert s1.address s1 lookup)
    | .single _ _ s => dictInsert s.address s lookup) []

/-- `Route.get_known_addresses` (as a list of keys; only membership is
ever used). -/
def get_known_addresses (r : Route K) : List String :=
  dictKeys r.get_mac_to_sensor_lookup

end Route

/-! ### Scan loop (`route_timer.py`) and scanner (`scanner.py`)

The asynchronous loop is embedded as a state machine driven by the stream
of yielded readings.  A reading's `timestamp` field is set by the scanner
to `datetime.now()` at detection, so it doubles as the wall clock at which
the loop body runs for that reading; `asyncio.sleep(D)` started while
processing a reading at time `t` is a timer whose `done()` test at a later
wall-clock `now` is `t + D ≤ now`.  Crucially, as in the source, the
`done()` test is evaluated only at the top of the `async for` body — that
is, only when the stream yields another reading. -/

/-- `scanner.DeviceReading` (`device.address`, detection time, RSSI). -/
structure DeviceReading (K : Type) where
  address : String
  timestamp : Timestamp
  rssi : K
deriving DecidableEq

/-- The loop-carried state of `route_timer.scan_loop`: the route whose
sensors accumulate history, `last_end_signal`, and the two timers (as
absolute expiry deadlines; `none` = not running).  `finished` records that
the `break` on timer expiry has been taken. -/
structure ScanState (K : Type) where
  route : Route K
  last_end_signal : Option (SignalReading K) := none
  end_timer : Option Timestamp := none
  absolute_end_timer : Option Timestamp := none
  finished : Bool := false
deriving DecidableEq

/-- `timer.done()` evaluated at wall-clock `now`. -/
def timerDone (timer : Option Timestamp) (now : Timestamp) : Bool :=
  match timer with
  | some deadline => decide (deadline ≤ now)
  | none => false

/-- The mutation `sensor.add_rssi(reading.rssi, reading.timestamp)` of the
shared `Sensor` object found in the lookup, seen through the route: every
sensor of the route with the reading's address gains the reading. -/
def Sensor.addIfAddress {K : Type} (a : String) (rssi : K) (ts : Timestamp)
    (s : Sensor K) : Sensor K :=
  if s.address = a then s.add_rssi rssi ts else s

/-- Lift `Sensor.addIfAddress` over a route point. -/
def RoutePoint.addReading {K : Type} (a : String) (rssi : K) (ts : Timestamp) :
    RoutePoint K → RoutePoint K
  | .single ty nm sensor => .single ty nm (sensor.addIfAddress a rssi ts)
  | .dual ty nm s1 s2 =>
      .dual ty nm (s1.addIfAddress a rssi ts) (s2.addIfAddress a rssi ts)

/-- Lift `Sensor.addIfAddress` over the whole route. -/
def Route.addReading {K : Type} (r : Route K) (a : String) (rssi : K)
    (ts : Timestamp) : Route K :=
  { r with
    start := r.start.addReading a rssi ts
    «end» := r.«end».addReading a rssi ts
    checkpoints := r.checkpoints.map (RoutePoint.addReading a rssi ts) }

section ScanLoop

variable {K : Type} [LinearOrderedAddCommGroup K]

/-- `last_end_signal is None or end_signal.strength > last_end_signal.strength`. -/
def strongerThanLast (last : Option (SignalReading K)) (sig : SignalReading K) :
    Bool :=
  match last with
  | none => true
  | some l => decide (l.strength < sig.strength)

/-- One iteration of the `async for` body of `scan_loop`, driven by the
reading just yielded by the stream.  Follows `route_timer.py` line by
line: the timer-expiry check first (using the previous iterations' state),
then the lookup, the sensor mutation, and the end-point timer logic. -/
def scanStep (st : ScanState K) (reading : DeviceReading K) : ScanState K :=
  if st.finished then st
  else if timerDone st.end_timer reading.timestamp ||
      timerDone st.absolute_end_timer reading.timestamp then
    { st with finished := true }
  else
    match dictFind? st.route.get_mac_to_sensor_lookup reading.address with
    | none => st   -- unknown device: logged at debug level and discarded
    | some sensor =>
        -- `route'` is the route seen through the mutated sensor object;
        -- `sensor.add_rssi(...)` is the same mutation seen through the
        -- lookup reference (the source's locals are inlined here)
        if (st.route.addReading reading.address reading.rssi
            reading.timestamp).is_end_sensor
            (sensor.add_rssi reading.rssi reading.timestamp) then
          match (st.route.addReading reading.address reading.rssi
              reading.timestamp).«end».get_strongest_signal with
          | none =>
              { st with route := (st.route.addReading reading.address
                  reading.rssi reading.timestamp) }
          | some end_signal =>
              -- `abs'`: start the absolute timer on the first end signal,
              -- otherwise keep the running one
              if strongerThanLast st.last_end_signal end_signal then
                { route := (st.route.addReading reading.address reading.rssi
                    reading.timestamp)
                  last_end_signal := some end_signal
                  end_timer := some (reading.timestamp + SCAN_END_TIMER_DURATION_SEC)
                  absolute_end_timer :=
                    match st.absolute_end_timer with
                    | none => some (reading.timestamp + ABSOLUTE_END_TIMER_DURATION_SEC)
                    | some d => some d
                  finished := false }
              else
                { st with
                  route := (st.route.addReading reading.address reading.rssi
                    reading.timestamp)
                  absolute_end_timer :=
                    match st.absolute_end_timer with
                    | none => some (reading.timestamp + ABSOLUTE_END_TIMER_DURATION_SEC)
                    | some d => some d }
        else
          { st with route := (st.route.addReading reading.address reading.rssi
              reading.timestamp) }

/-- The loop run over a finite list of yielded readings. -/
def scanRun (st : ScanState K) (rs : List (DeviceReading K)) : ScanState K :=
  rs.foldl scanStep st

/-- The state of `scan_loop` at entry (`last_end_signal = None`, no timers). -/
def initialScanState (route : Route K) : ScanState K :=
  { route := route }

/-- `BluetoothScanner.scan_devices` yields a reading only when the queue
delivers one within the 0.1 s `wait_for` window; a `TimeoutError` is
swallowed by `continue` without yielding.  A run of the generator is thus
a function from poll ticks to optionally-yielded readings, and the loop
body of `scan_loop` executes exactly at the `some` ticks. -/
def deliveredBy (stream : Nat → Option (DeviceReading K)) (n : Nat) :
    List (DeviceReading K) :=
  (List.range n).filterMap stream

end ScanLoop

/-! ### Exit paths of `scan_loop` (cleanup, cancellation, scanner stop) -/

/-- The scanner's externally visible state: `running` is
`self._scanner is not None`; `driver_stops` counts the calls
`await self._scanner.stop()` actually issued to the BLE driver. -/
structure ScannerState where
  running : Bool
  driver_stops : Nat
deriving DecidableEq

/-- `BluetoothScanner.stop_scan`: stop the driver and clear `_scanner`
only when one is running. -/
def stop_scan (sc : ScannerState) : ScannerState :=
  if sc.running then { running := false, driver_stops := sc.driver_stops + 1 }
  else sc

/-- How a run of `scan_loop` ended. -/
inductive ExitPath where
  | timerBreak   -- the `break` on a completed timer
  | streamEnd    -- the reading stream was exhausted
  | cancelledDuringAwait   -- `CancelledError` delivered at the stream await
deriving DecidableEq

/-- The observable outcome of one run of `scan_loop`. -/
structure LoopOutcome (K : Type) where
  state : ScanState K
  scanner : ScannerState
  returned : Option (Route K)   -- `some`: normal return; `none`: exception propagated
  exit_path : ExitPath
deriving DecidableEq

section FullRun

variable {K : Type} [LinearOrderedAddCommGroup K]

/-- The `finally` block of `scan_loop`: cancel whichever timers run, then
`await scanner.stop_scan()`. -/
def loopCleanup (st : ScanState K) (sc : ScannerState) :
    ScanState K × ScannerState :=
  ({ st with end_timer := none, absolute_end_timer := none }, stop_scan sc)

/-- A complete run of `scan_loop` over the readings the scanner would
yield, with an optional external cancellation delivered at the `i`-th
stream await.  Per the source:

* a cancellation delivered at the stream await is raised inside
  `scan_devices`' `wait_for`; the generator's `except CancelledError:
  break` catches it, its `finally` calls `stop_scan`, and the exhausted
  stream makes `scan_loop` leave the `async for` normally and
  `return route` — the `except asyncio.CancelledError: raise` branch of
  `scan_loop` never sees the exception;
* on a timer `break` or on stream exhaustion, `scan_loop` returns the
  route; the generator's `finally` also calls `stop_scan` when it is
  closed.  In every case `scan_loop`'s own `finally` cancels the timers
  and calls `stop_scan` (again). -/
def runScanLoop (sc : ScannerState) (st : ScanState K) (cancelAt : Option Nat)
    (i : Nat) : List (DeviceReading K) → LoopOutcome K
  | [] =>
      if cancelAt = some i then
        let sc1 := stop_scan sc         -- generator `finally`
        let (st2, sc2) := loopCleanup st sc1   -- scan_loop `finally`
        { state := st2, scanner := sc2, returned := some st2.route
          exit_path := .cancelledDuringAwait }
      else
        let sc1 := stop_scan sc         -- generator `finally` on exhaustion
        let (st2, sc2) := loopCleanup st sc1
        { state := st2, scanner := sc2, returned := some st2.route
          exit_path := .streamEnd }
  | r :: rest =>
      if cancelAt = some i then
        let sc1 := stop_scan sc         -- generator `finally`
        let (st2, sc2) := loopCleanup st sc1   -- scan_loop `finally`
        { state := st2, scanner := sc2, returned := some st2.route
          exit_path := .cancelledDuringAwait }
      else
        let st' := scanStep st r
        if st'.finished then
          let (st2, sc1) := loopCleanup st' sc   -- scan_loop `finally`
          let sc2 := stop_scan sc1      -- generator `finally` on close
          { state := st2, scanner := sc2, returned := some st2.route
            exit_path := .timerBreak }
        else
          runScanLoop sc st' cancelAt (i + 1) rest

end FullRun

end BRT


namespace BRT

/-! ### Lemmas about the dict embedding -/

section DictLemmas

variable {κ ν : Type} [DecidableEq κ]

theorem dictInsert_ne_nil (k : κ) (v : ν) (d : List (κ × ν)) :
    dictInsert k v d ≠ [] := by
  cases d with
  | nil => simp [dictInsert]
  | cons p rest =>
      obtain ⟨k0, v0⟩ := p
      simp only [dictInsert]
      split <;> simp

theorem dictInsert_fresh {k : κ} (v : ν) :
    ∀ {d : List (κ × ν)}, k ∉ dictKeys d → dictInsert k v d = d ++ [(k, v)]
  | [], _ => rfl
  | (k0, v0) :: rest, h => by
      have h1 : ¬ k0 = k := by
        intro he; exact h (by simp [dictKeys, he])
      have h2 : k ∉ dictKeys rest := by
        intro hm; exact h (by simp [dictKeys] at hm ⊢; exact Or.inr hm)
      simp [dictInsert, h1, dictInsert_fresh v h2]

omit [DecidableEq κ] in
theorem dictKeys_append (d1 d2 : List (κ × ν)) :
    dictKeys (d1 ++ d2) = dictKeys d1 ++ dictKeys d2 :=
  List.map_append _ _ _

theorem mem_dictKeys_insert {a k : κ} (v : ν) :
    ∀ {d : List (κ × ν)}, a ∈ dictKeys d → a ∈ dictKeys (dictInsert k v d)
  | [], h => by simp [dictKeys] at h
  | (k0, v0) :: rest, h => by
      simp only [dictKeys, List.map_cons, List.mem_cons] at h
      simp only [dictInsert]
      split
      next he =>
          rcases h with h | h
          · subst he
            simp only [dictKeys, List.map_cons, List.mem_cons]
            exact Or.inl h
          · simp only [dictKeys, List.map_cons, List.mem_cons]
            exact Or.inr h
      next he =>
          rcases h with h | h
          · simp only [dictKeys, List.map_cons, List.mem_cons]
            exact Or.inl h
          · have := mem_dictKeys_insert (k := k) v (d := rest) h
            simp only [dictKeys, List.map_cons, List.mem_cons]
            exact Or.inr this

theorem dictFind?_eq_none_iff {k : κ} :
    ∀ {d : List (κ × ν)}, dictFind? d k = none ↔ k ∉ dictKeys d
  | [] => by simp [dictFind?, dictKeys]
  | (k0, v0) :: rest => by
      simp only [dictFind?, dictKeys, List.map_cons, List.mem_cons]
      split
      next he => subst he; simp
      next he =>
          rw [dictFind?_eq_none_iff (d := rest)]
          simp [dictKeys]
          intro h; exact fun he2 => he he2.symm

theorem dictFind?_mem {k : κ} {v : ν} :
    ∀ {d : List (κ × ν)}, dictFind? d k = some v → (k, v) ∈ d
  | [], h => by simp [dictFind?] at h
  | (k0, v0) :: rest, h => by
      simp only [dictFind?] at h
      split at h
      next he =>
          obtain ⟨rfl⟩ := Option.some.inj h
          subst he
          exact List.mem_cons_self _ _
      next he => exact List.mem_cons_of_mem _ (dictFind?_mem h)

theorem dictFind?_isSome_of_mem {k : κ} :
    ∀ {d : List (κ × ν)}, k ∈ dictKeys d → ∃ v, dictFind? d k = some v
  | [], h => by simp [dictKeys] at h
  | (k0, v0) :: rest, h => by
      simp only [dictKeys, List.map_cons, List.mem_cons] at h
      simp only [dictFind?]
      split
      next => exact ⟨v0, rfl⟩
      next he =>
          rcases h with h | h
          · exact absurd h.symm he
          · exact dictFind?_isSome_of_mem h

theorem dictGet_mem {k : κ} {dflt : ν} {d : List (κ × ν)}
    (h : k ∈ dictKeys d) : (k, dictGet d k dflt) ∈ d := by
  obtain ⟨v, hv⟩ := dictFind?_isSome_of_mem h
  have := dictFind?_mem hv
  simpa [dictGet, hv] using this

theorem eq_dictGet_of_mem {k : κ} {v dflt : ν} :
    ∀ {d : List (κ × ν)}, (dictKeys d).Nodup → (k, v) ∈ d →
      v = dictGet d k dflt
  | [], _, h => by simp at h
  | (k0, v0) :: rest, hnd, h => by
      simp only [dictKeys, List.map_cons, List.nodup_cons] at hnd
      rcases List.mem_cons.mp h with h | h
      · obtain ⟨rfl, rfl⟩ := Prod.mk.injEq .. ▸ h
        simp [dictGet, dictFind?]
      · have hk : ¬ k0 = k := by
          intro he; subst he
          exact hnd.1 (by simpa [dictKeys] using List.mem_map_of_mem Prod.fst h)
        simp only [dictGet, dictFind?, if_neg hk]
        exact eq_dictGet_of_mem hnd.2 h

theorem dictFind?_append_left {k : κ} {d1 d2 : List (κ × ν)}
    (h : k ∈ dictKeys d1) : dictFind? (d1 ++ d2) k = dictFind? d1 k := by
  induction d1 with
  | nil => simp [dictKeys] at h
  | cons p rest ih =>
      obtain ⟨k0, v0⟩ := p
      simp only [List.cons_append, dictFind?]
      split
      next => rfl
      next he =>
          refine ih ?_
          simp only [dictKeys, List.map_cons, List.mem_cons] at h
          rcases h with h | h
          · exact absurd h.symm he
          · exact h

theorem dictFind?_append_right {k : κ} {d1 d2 : List (κ × ν)}
    (h : k ∉ dictKeys d1) : dictFind? (d1 ++ d2) k = dictFind? d2 k := by
  induction d1 with
  | nil => simp
  | cons p rest ih =>
      obtain ⟨k0, v0⟩ := p
      simp only [dictKeys, List.map_cons, List.mem_cons] at h
      push_neg at h
      have hne : ¬ k0 = k := fun he => h.1 he.symm
      simp only [List.cons_append, dictFind?, if_neg hne]
      exact ih h.2

theorem dictFind?_insert_self (k : κ) (v : ν) :
    ∀ (d : List (κ × ν)), dictFind? (dictInsert k v d) k = some v
  | [] => by simp [dictInsert, dictFind?]
  | (k0, v0) :: rest => by
      simp only [dictInsert]
      split
      next => simp [dictFind?]
      next he => simp only [dictFind?, if_neg he]; exact dictFind?_insert_self k v rest

theorem dictFind?_insert_ne {k' k : κ} (v : ν) (h : k' ≠ k) :
    ∀ (d : List (κ × ν)), dictFind? (dictInsert k' v d) k = dictFind? d k
  | [] => by simp [dictInsert, dictFind?, fun he => h he]
  | (k0, v0) :: rest => by
      simp only [dictInsert]
      split
      next he =>
          subst he
          simp only [dictFind?, if_neg h]
      next he =>
          simp only [dictFind?]
          split
          next => rfl
          next => exact dictFind?_insert_ne v h rest

theorem dictKeys_insert_fresh {k : κ} (v : ν) {d : List (κ × ν)}
    (h : k ∉ dictKeys d) : dictKeys (dictInsert k v d) = dictKeys d ++ [k] := by
  rw [dictInsert_fresh v h, dictKeys_append]
  rfl

theorem dictGet_append_left {k : κ} {dflt : ν} {d1 d2 : List (κ × ν)}
    (h : k ∈ dictKeys d1) :
    dictGet (d1 ++ d2) k dflt = dictGet d1 k dflt := by
  simp [dictGet, dictFind?_append_left h]

end DictLemmas

end BRT


namespace BRT

/-! ### Lemmas about the `max(.., key=..)` / `min(.., key=..)` embedding -/

section MinMaxLemmas

variable {K : Type} [LinearOrder K] {α : Type}

/-- The fold body of `maxByKey`. -/
def pyMaxF (f : α → K) (best y : α) : α := if f y > f best then y else best

/-- The fold body of `minByKey`. -/
def pyMinF (f : α → K) (best y : α) : α := if f y < f best then y else best

theorem maxByKey_cons (f : α → K) (x : α) (xs : List α) :
    maxByKey f (x :: xs) = some (xs.foldl (pyMaxF f) x) := rfl

theorem minByKey_cons (f : α → K) (x : α) (xs : List α) :
    minByKey f (x :: xs) = some (xs.foldl (pyMinF f) x) := rfl

/-- The Python `max(.., key=f)` fold returns the first element attaining
the maximum: everything before it is strictly smaller, everything is `≤`. -/
theorem foldlMax_spec (f : α → K) :
    ∀ (xs : List α) (x : α),
      ∃ l1 l2, x :: xs = l1 ++ (xs.foldl (pyMaxF f) x) :: l2 ∧
        (∀ y ∈ l1, f y < f (xs.foldl (pyMaxF f) x)) ∧
        (∀ y ∈ x :: xs, f y ≤ f (xs.foldl (pyMaxF f) x))
  | [], x => ⟨[], [], rfl, by simp, by simp⟩
  | y :: ys, x => by
      have hfold : (y :: ys).foldl (pyMaxF f) x = ys.foldl (pyMaxF f) (pyMaxF f x y) :=
        rfl
      obtain ⟨l1, l2, hdec, hlt, hle⟩ := foldlMax_spec f ys (pyMaxF f x y)
      rw [hfold]
      by_cases hxy : f x < f y
      · have hgxy : pyMaxF f x y = y := by simp [pyMaxF, hxy]
        rw [hgxy] at hdec hlt hle ⊢
        have hym : f y ≤ f (ys.foldl (pyMaxF f) y) := hle y (by simp)
        have hxm : f x < f (ys.foldl (pyMaxF f) y) := lt_of_lt_of_le hxy hym
        refine ⟨x :: l1, l2, by rw [List.cons_append, ← hdec], ?_, ?_⟩
        · intro z hz
          rcases List.mem_cons.mp hz with rfl | hz
          · exact hxm
          · exact hlt z hz
        · intro z hz
          rcases List.mem_cons.mp hz with rfl | hz
          · exact le_of_lt hxm
          · exact hle z hz
      · have hgxy : pyMaxF f x y = x := by simp [pyMaxF, hxy]
        rw [hgxy] at hdec hlt hle ⊢
        have hyx : f y ≤ f x := le_of_not_lt hxy
        cases l1 with
        | nil =>
            simp only [List.nil_append, List.cons.injEq] at hdec
            obtain ⟨hmx, hl2⟩ := hdec
            refine ⟨[], y :: ys, ?_, by simp, ?_⟩
            · rw [List.nil_append, ← hmx]
            · intro z hz
              rcases List.mem_cons.mp hz with rfl | hz
              · rw [← hmx]
              · rcases List.mem_cons.mp hz with rfl | hz
                · rw [← hmx]; exact hyx
                · exact hle z (List.mem_cons_of_mem _ hz)
        | cons h0 t =>
            simp only [List.cons_append, List.cons.injEq] at hdec
            obtain ⟨hh0, hys⟩ := hdec
            subst hh0
            have hxm : f x < f (ys.foldl (pyMaxF f) x) := hlt x (by simp)
            refine ⟨x :: y :: t, l2,
              by rw [List.cons_append, List.cons_append, ← hys], ?_, ?_⟩
            · intro z hz
              rcases List.mem_cons.mp hz with rfl | hz
              · exact hxm
              · rcases List.mem_cons.mp hz with rfl | hz
                · exact lt_of_le_of_lt hyx hxm
                · exact hlt z (List.mem_cons_of_mem _ hz)
            · intro z hz
              rcases List.mem_cons.mp hz with rfl | hz
              · exact le_of_lt hxm
              · rcases List.mem_cons.mp hz with rfl | hz
                · exact le_of_lt (lt_of_le_of_lt hyx hxm)
                · exact hle z (List.mem_cons_of_mem _ hz)

/-- The Python `min(.., key=f)` fold returns an element of the list that
minimises `f`. -/
theorem foldlMin_spec (f : α → K) :
    ∀ (xs : List α) (x : α),
      xs.foldl (pyMinF f) x ∈ x :: xs ∧
        ∀ y ∈ x :: xs, f (xs.foldl (pyMinF f) x) ≤ f y
  | [], x => ⟨by simp, by simp⟩
  | y :: ys, x => by
      have hfold : (y :: ys).foldl (pyMinF f) x = ys.foldl (pyMinF f) (pyMinF f x y) :=
        rfl
      obtain ⟨hmem, hle⟩ := foldlMin_spec f ys (pyMinF f x y)
      rw [hfold]
      constructor
      · have hgmem : pyMinF f x y = x ∨ pyMinF f x y = y := by
          simp only [pyMinF]
          split
          · exact Or.inr rfl
          · exact Or.inl rfl
        rcases List.mem_cons.mp hmem with hm | hm
        · rcases hgmem with hg | hg
          · rw [hm, hg]; exact List.mem_cons_self _ _
          · rw [hm, hg]; exact List.mem_cons_of_mem _ (List.mem_cons_self _ _)
        · exact List.mem_cons_of_mem _ (List.mem_cons_of_mem _ hm)
      · have hg : f (pyMinF f x y) ≤ f x ∧ f (pyMinF f x y) ≤ f y := by
          by_cases hxy : f y < f x
          · have hpy : pyMinF f x y = y := by simp [pyMinF, hxy]
            rw [hpy]
            exact ⟨le_of_lt hxy, le_refl _⟩
          · have hpx : pyMinF f x y = x := by simp [pyMinF, hxy]
            rw [hpx]
            exact ⟨le_refl _, le_of_not_lt hxy⟩
        have hgm : f (ys.foldl (pyMinF f) (pyMinF f x y)) ≤ f (pyMinF f x y) :=
          hle _ (by simp)
        intro z hz
        rcases List.mem_cons.mp hz with rfl | hz
        · exact le_trans hgm hg.1
        · rcases List.mem_cons.mp hz with rfl | hz
          · exact le_trans hgm hg.2
          · exact hle z (List.mem_cons_of_mem _ hz)

theorem maxByKey_eq_none_iff {f : α → K} {l : List α} :
    maxByKey f l = none ↔ l = [] := by
  cases l <;> simp [maxByKey]

theorem minByKey_eq_none_iff {f : α → K} {l : List α} :
    minByKey f l = none ↔ l = [] := by
  cases l <;> simp [minByKey]

theorem maxByKey_isSome {f : α → K} {l : List α} (h : l ≠ []) :
    ∃ m, maxByKey f l = some m := by
  cases l with
  | nil => exact absurd rfl h
  | cons x xs => exact ⟨_, maxByKey_cons f x xs⟩

theorem minByKey_isSome {f : α → K} {l : List α} (h : l ≠ []) :
    ∃ m, minByKey f l = some m := by
  cases l with
  | nil => exact absurd rfl h
  | cons x xs => exact ⟨_, minByKey_cons f x xs⟩

theorem maxByKey_first {f : α → K} {l : List α} {m : α}
    (h : maxByKey f l = some m) :
    ∃ l1 l2, l = l1 ++ m :: l2 ∧ ∀ y ∈ l1, f y < f m := by
  cases l with
  | nil => simp [maxByKey] at h
  | cons x xs =>
      rw [maxByKey_cons] at h
      obtain rfl := Option.some.inj h
      obtain ⟨l1, l2, hdec, hlt, _⟩ := foldlMax_spec f xs x
      exact ⟨l1, l2, hdec, hlt⟩

theorem maxByKey_mem {f : α → K} {l : List α} {m : α}
    (h : maxByKey f l = some m) : m ∈ l := by
  obtain ⟨l1, l2, hdec, _⟩ := maxByKey_first h
  rw [hdec]
  exact List.mem_append_right _ (List.mem_cons_self _ _)

theorem maxByKey_le {f : α → K} {l : List α} {m : α}
    (h : maxByKey f l = some m) : ∀ y ∈ l, f y ≤ f m := by
  cases l with
  | nil => simp [maxByKey] at h
  | cons x xs =>
      rw [maxByKey_cons] at h
      obtain rfl := Option.some.inj h
      exact (foldlMax_spec f xs x).choose_spec.choose_spec.2.2

theorem minByKey_mem {f : α → K} {l : List α} {m : α}
    (h : minByKey f l = some m) : m ∈ l := by
  cases l with
  | nil => simp [minByKey] at h
  | cons x xs =>
      rw [minByKey_cons] at h
      obtain rfl := Option.some.inj h
      exact (foldlMin_spec f xs x).1

theorem minByKey_le {f : α → K} {l : List α} {m : α}
    (h : minByKey f l = some m) : ∀ y ∈ l, f m ≤ f y := by
  cases l with
  | nil => simp [minByKey] at h
  | cons x xs =>
      rw [minByKey_cons] at h
      obtain rfl := Option.some.inj h
      exact (foldlMin_spec f xs x).2

theorem foldl_pyMaxF_congr {f f2 : α → K} :
    ∀ (xs : List α) (x : α), (∀ y ∈ x :: xs, f y = f2 y) →
      xs.foldl (pyMaxF f) x = xs.foldl (pyMaxF f2) x
  | [], _, _ => rfl
  | y :: ys, x, h => by
      have hx := h x (by simp)
      have hy := h y (by simp)
      have hg : pyMaxF f x y = pyMaxF f2 x y := by
        simp only [pyMaxF, hx, hy]
      have hgmem : pyMaxF f2 x y = x ∨ pyMaxF f2 x y = y := by
        simp only [pyMaxF]
        split
        · exact Or.inr rfl
        · exact Or.inl rfl
      show ys.foldl (pyMaxF f) (pyMaxF f x y) = ys.foldl (pyMaxF f2) (pyMaxF f2 x y)
      rw [hg]
      refine foldl_pyMaxF_congr ys (pyMaxF f2 x y) ?_
      intro z hz
      rcases List.mem_cons.mp hz with rfl | hz
      · rcases hgmem with hgm | hgm <;> rw [hgm]
        · exact hx
        · exact hy
      · exact h z (List.mem_cons_of_mem _ (List.mem_cons_of_mem _ hz))

theorem foldl_pyMinF_congr {f f2 : α → K} :
    ∀ (xs : List α) (x : α), (∀ y ∈ x :: xs, f y = f2 y) →
      xs.foldl (pyMinF f) x = xs.foldl (pyMinF f2) x
  | [], _, _ => rfl
  | y :: ys, x, h => by
      have hx := h x (by simp)
      have hy := h y (by simp)
      have hg : pyMinF f x y = pyMinF f2 x y := by
        simp only [pyMinF, hx, hy]
      have hgmem : pyMinF f2 x y = x ∨ pyMinF f2 x y = y := by
        simp only [pyMinF]
        split
        · exact Or.inr rfl
        · exact Or.inl rfl
      show ys.foldl (pyMinF f) (pyMinF f x y) = ys.foldl (pyMinF f2) (pyMinF f2 x y)
      rw [hg]
      refine foldl_pyMinF_congr ys (pyMinF f2 x y) ?_
      intro z hz
      rcases List.mem_cons.mp hz with rfl | hz
      · rcases hgmem with hgm | hgm <;> rw [hgm]
        · exact hx
        · exact hy
      · exact h z (List.mem_cons_of_mem _ (List.mem_cons_of_mem _ hz))

theorem maxByKey_congr {f f2 : α → K} {l : List α}
    (h : ∀ y ∈ l, f y = f2 y) : maxByKey f l = maxByKey f2 l := by
  cases l with
  | nil => rfl
  | cons x xs =>
      rw [maxByKey_cons, maxByKey_cons, foldl_pyMaxF_congr xs x h]

theorem minByKey_congr {f f2 : α → K} {l : List α}
    (h : ∀ y ∈ l, f y = f2 y) : minByKey f l = minByKey f2 l := by
  cases l with
  | nil => rfl
  | cons x xs =>
      rw [minByKey_cons, minByKey_cons, foldl_pyMinF_congr xs x h]

end MinMaxLemmas

end BRT

namespace BRT

/-! ### Characterisation of `get_strongest_signal` -/

section StrongestLemmas

variable {K : Type} [LinearOrderedAddCommGroup K]

omit [LinearOrderedAddCommGroup K] in
theorem mem_commonTimes {s1 s2 : Sensor K} {t : Timestamp} :
    t ∈ commonTimes s1 s2 ↔
      t ∈ dictKeys s1.rssi_history ∧ t ∈ dictKeys s2.rssi_history := by
  simp [commonTimes, List.mem_filter]

theorem single_strongest_eq_none_iff (ty : PointType) (nm : String)
    (sen : Sensor K) :
    (RoutePoint.single ty nm sen).get_strongest_signal = none ↔
      sen.rssi_history = [] := by
  by_cases hr : sen.rssi_history = []
  · simp [RoutePoint.get_strongest_signal, Sensor.has_readings, hr]
  · have hbr : sen.has_readings = true := by
      simp [Sensor.has_readings, hr]
    have hkeys : dictKeys sen.rssi_history ≠ [] := by
      simp [dictKeys, hr]
    obtain ⟨m, hm⟩ :=
      maxByKey_isSome (f := fun t => dictGet sen.rssi_history t 0) hkeys
    simp [RoutePoint.get_strongest_signal, hbr, hm, hr]

theorem single_strongest_some_spec {ty : PointType} {nm : String}
    {sen : Sensor K} {sig : SignalReading K}
    (h : (RoutePoint.single ty nm sen).get_strongest_signal = some sig) :
    sig.timestamp ∈ dictKeys sen.rssi_history ∧
    sig.strength = dictGet sen.rssi_history sig.timestamp 0 ∧
    (∀ u ∈ dictKeys sen.rssi_history, dictGet sen.rssi_history u 0 ≤ sig.strength) ∧
    ∃ l1 l2, dictKeys sen.rssi_history = l1 ++ sig.timestamp :: l2 ∧
      ∀ u ∈ l1, dictGet sen.rssi_history u 0 < sig.strength := by
  have hr : sen.rssi_history ≠ [] := by
    intro hnil
    rw [← single_strongest_eq_none_iff ty nm sen] at hnil
    rw [h] at hnil
    exact Option.noConfusion hnil
  have hbr : ¬ (sen.has_readings = false) := by
    simp [Sensor.has_readings, hr]
  have hkeys : dictKeys sen.rssi_history ≠ [] := by
    simp [dictKeys, hr]
  obtain ⟨m, hm⟩ :=
    maxByKey_isSome (f := fun t => dictGet sen.rssi_history t 0) hkeys
  simp only [RoutePoint.get_strongest_signal, if_neg hbr, hm] at h
  obtain rfl := Option.some.inj h
  refine ⟨maxByKey_mem hm, rfl, maxByKey_le hm, ?_⟩
  obtain ⟨l1, l2, hdec, hlt⟩ := maxByKey_first hm
  exact ⟨l1, l2, hdec, hlt⟩

theorem single_strongest_isSome {ty : PointType} {nm : String}
    {sen : Sensor K} (h : sen.rssi_history ≠ []) :
    ∃ sig, (RoutePoint.single ty nm sen).get_strongest_signal = some sig := by
  cases hg : (RoutePoint.single ty nm sen).get_strongest_signal with
  | none => exact absurd ((single_strongest_eq_none_iff ty nm sen).mp hg) h
  | some sig => exact ⟨sig, rfl⟩

theorem dual_strongest_eq_none_iff (ty : PointType) (nm : String)
    (s1 s2 : Sensor K) :
    (RoutePoint.dual ty nm s1 s2).get_strongest_signal = none ↔
      commonTimes s1 s2 = [] := by
  by_cases hc : commonTimes s1 s2 = []
  · simp [RoutePoint.get_strongest_signal, hc, maxByKey]
  · obtain ⟨m, hm⟩ := maxByKey_isSome (f := combinedStrength s1 s2) hc
    simp [RoutePoint.get_strongest_signal, hm, hc]

theorem tieBreak_spec (s1 s2 : Sensor K) (stimes : List Timestamp)
    (sc : Timestamp) (hne : sc ∈ stimes) :
    tieBreak s1 s2 stimes sc ∈ stimes ∧
      ∀ u ∈ stimes, signalBalance s1 s2 (tieBreak s1 s2 stimes sc) ≤
        signalBalance s1 s2 u := by
  match stimes, hne with
  | [t0], _ =>
      constructor
      · simp [tieBreak]
      · intro u hu
        simp only [List.mem_singleton] at hu
        subst hu
        simp [tieBreak]
  | t0 :: t1 :: rest, _ =>
      obtain ⟨mn, hmn⟩ := minByKey_isSome
        (f := signalBalance s1 s2) (l := t0 :: t1 :: rest) (by simp)
      have htb : tieBreak s1 s2 (t0 :: t1 :: rest) sc = mn := by
        simp [tieBreak, hmn]
      rw [htb]
      exact ⟨minByKey_mem hmn, minByKey_le hmn⟩

theorem dual_strongest_some_spec {ty : PointType} {nm : String}
    {s1 s2 : Sensor K} {sig : SignalReading K}
    (h : (RoutePoint.dual ty nm s1 s2).get_strongest_signal = some sig) :
    sig.timestamp ∈ commonTimes s1 s2 ∧
    sig.strength = combinedStrength s1 s2 sig.timestamp ∧
    (∀ u ∈ commonTimes s1 s2, combinedStrength s1 s2 u ≤ sig.strength) ∧
    (∀ u ∈ commonTimes s1 s2, combinedStrength s1 s2 u = sig.strength →
      signalBalance s1 s2 sig.timestamp ≤ signalBalance s1 s2 u) := by
  cases hm : maxByKey (combinedStrength s1 s2) (commonTimes s1 s2) with
  | none =>
      have : (RoutePoint.dual ty nm s1 s2).get_strongest_signal = none := by
        simp [RoutePoint.get_strongest_signal, hm]
      rw [h] at this
      exact Option.noConfusion this
  | some sc =>
      have hsc_mem : sc ∈ commonTimes s1 s2 := maxByKey_mem hm
      have hsc_le : ∀ u ∈ commonTimes s1 s2,
          combinedStrength s1 s2 u ≤ combinedStrength s1 s2 sc := maxByKey_le hm
      set stimes := (commonTimes s1 s2).filter
        (fun t => decide (combinedStrength s1 s2 t = combinedStrength s1 s2 sc))
        with hstimes
      have hsc_in : sc ∈ stimes := by
        rw [hstimes]
        exact List.mem_filter.mpr ⟨hsc_mem, by simp⟩
      have hst_sub : ∀ u ∈ stimes, u ∈ commonTimes s1 s2 := by
        intro u hu
        rw [hstimes] at hu
        exact (List.mem_filter.mp hu).1
      have hst_comb : ∀ u ∈ stimes,
          combinedStrength s1 s2 u = combinedStrength s1 s2 sc := by
        intro u hu
        rw [hstimes] at hu
        have := (List.mem_filter.mp hu).2
        exact of_decide_eq_true this
      obtain ⟨htb_mem, htb_min⟩ := tieBreak_spec s1 s2 stimes sc hsc_in
      have hform : (RoutePoint.dual ty nm s1 s2).get_strongest_signal =
          some ⟨tieBreak s1 s2 stimes sc,
            combinedStrength s1 s2 (tieBreak s1 s2 stimes sc)⟩ := by
        simp only [RoutePoint.get_strongest_signal, hm, hstimes]
      rw [hform] at h
      obtain rfl := Option.some.inj h
      refine ⟨hst_sub _ htb_mem, rfl, ?_, ?_⟩
      · intro u hu
        calc combinedStrength s1 s2 u ≤ combinedStrength s1 s2 sc := hsc_le u hu
          _ = combinedStrength s1 s2 (tieBreak s1 s2 stimes sc) :=
            (hst_comb _ htb_mem).symm
      · intro u hu hcomb
        have hcombsc : combinedStrength s1 s2 u = combinedStrength s1 s2 sc := by
          rw [hcomb]
          exact hst_comb _ htb_mem
        have hu_st : u ∈ stimes := by
          rw [hstimes]
          exact List.mem_filter.mpr ⟨hu, by simp [hcombsc]⟩
        exact htb_min u hu_st

end StrongestLemmas

end BRT

namespace BRT

/-! ### Claim theorems: signal aggregation -/

/-- C1: for every dual-sensor route point, `get_strongest_signal` returns
`None` exactly when the two sensors' histories share no timestamp;
otherwise it returns a timestamp drawn from the exact intersection of the
two sensors' timestamp keys that maximises `strength1 + strength2`, with
reported strength equal to that sum, and among timestamps attaining the
maximum combined strength it minimises `|strength1 - strength2|`; in
particular for readings `t0 = (-50, -60)` and `t1 = (-70, -40)` it returns
`t0`. -/
theorem claim1_dual_sensor_strongest_signal {K : Type}
    [LinearOrderedAddCommGroup K] (ty : PointType) (nm : String)
    (s1 s2 : Sensor K) :
    ((RoutePoint.dual ty nm s1 s2).get_strongest_signal = none ↔
      ¬ ∃ t, t ∈ dictKeys s1.rssi_history ∧ t ∈ dictKeys s2.rssi_history) ∧
    (∀ t s, (RoutePoint.dual ty nm s1 s2).get_strongest_signal = some ⟨t, s⟩ →
      (t ∈ dictKeys s1.rssi_history ∧ t ∈ dictKeys s2.rssi_history) ∧
      s = dictGet s1.rssi_history t 0 + dictGet s2.rssi_history t 0 ∧
      (∀ u, u ∈ dictKeys s1.rssi_history → u ∈ dictKeys s2.rssi_history →
        dictGet s1.rssi_history u 0 + dictGet s2.rssi_history u 0 ≤ s) ∧
      (∀ u, u ∈ dictKeys s1.rssi_history → u ∈ dictKeys s2.rssi_history →
        dictGet s1.rssi_history u 0 + dictGet s2.rssi_history u 0 = s →
        |dictGet s1.rssi_history t 0 - dictGet s2.rssi_history t 0| ≤
          |dictGet s1.rssi_history u 0 - dictGet s2.rssi_history u 0|)) ∧
    (RoutePoint.dual (K := Int) .END "end"
        ⟨"end_1", "11:22:33:44:55:66", [(0, -50), (1, -70)]⟩
        ⟨"end_2", "BB:CC:DD:EE:FF:00", [(0, -60), (1, -40)]⟩).get_strongest_signal =
      some ⟨0, -110⟩ := by
  refine ⟨?_, ?_, by decide⟩
  · rw [dual_strongest_eq_none_iff, List.eq_nil_iff_forall_not_mem]
    simp only [mem_commonTimes, not_exists]
  · intro t s h
    obtain ⟨hmem, hstr, hmax, hbal⟩ := dual_strongest_some_spec h
    simp only [mem_commonTimes] at hmem
    simp only [combinedStrength] at hstr hmax
    simp only [signalBalance] at hbal
    refine ⟨hmem, hstr, ?_, ?_⟩
    · intro u hu1 hu2
      exact hmax u (mem_commonTimes.mpr ⟨hu1, hu2⟩)
    · intro u hu1 hu2 hsum
      have := hbal u (mem_commonTimes.mpr ⟨hu1, hu2⟩)
      simp only [combinedStrength] at this
      exact this hsum

/-- Witness for C1: the tie-break instance of the spec.  At the
two-sensor histories `[(0, -50), (1, -70)]` and `[(0, -60), (1, -40)]`
the result is `(0, -110)`; instantiating the theorem at `t = 0`,
`s = -110` yields, e.g., the maximality inequality at `u = 1`. -/
theorem claim1_dual_sensor_strongest_signal_witness :
    dictGet ([(0, -50), (1, -70)] : List (Timestamp × Int)) 1 0 +
      dictGet ([(0, -60), (1, -40)] : List (Timestamp × Int)) 1 0 ≤ -110 := by
  have h := (claim1_dual_sensor_strongest_signal (K := Int) .END "end"
      ⟨"end_1", "11:22:33:44:55:66", [(0, -50), (1, -70)]⟩
      ⟨"end_2", "BB:CC:DD:EE:FF:00", [(0, -60), (1, -40)]⟩).2.1
      0 (-110) (by decide)
  exact h.2.2.1 1 (by decide) (by decide)

/-- C4: for every single-sensor route point, `get_strongest_signal`
returns `None` exactly when the sensor has no readings; otherwise it
returns a `(timestamp, strength)` pair from the sensor's history whose
strength is the maximum over all recorded readings, picked
deterministically among equal maxima (the earliest-inserted maximum:
everything before the winner in the history is strictly weaker); after
exactly one reading it equals that reading.  The `Nodup` hypothesis is
the `rssi_history` dict invariant (at most one strength per exact
timestamp). -/
theorem claim4_single_sensor_strongest_signal {K : Type}
    [LinearOrderedAddCommGroup K] (ty : PointType) (nm : String)
    (sen : Sensor K) (hnd : (dictKeys sen.rssi_history).Nodup) :
    ((RoutePoint.single ty nm sen).get_strongest_signal = none ↔
      sen.rssi_history = []) ∧
    (∀ t s, (RoutePoint.single ty nm sen).get_strongest_signal = some ⟨t, s⟩ →
      (t, s) ∈ sen.rssi_history ∧
      (∀ u v, (u, v) ∈ sen.rssi_history → v ≤ s) ∧
      (∃ l1 l2, dictKeys sen.rssi_history = l1 ++ t :: l2 ∧
        ∀ u ∈ l1, dictGet sen.rssi_history u 0 < s)) ∧
    (∀ (nm2 a : String) (t : Timestamp) (v : K),
      (RoutePoint.single ty nm ⟨nm2, a, [(t, v)]⟩).get_strongest_signal =
        some ⟨t, v⟩) := by
  refine ⟨single_strongest_eq_none_iff ty nm sen, ?_, ?_⟩
  · intro t s h
    obtain ⟨hmem, hstr, hmax, hfirst⟩ := single_strongest_some_spec h
    simp only at hmem hstr hmax hfirst
    refine ⟨?_, ?_, ?_⟩
    · have h2 : (t, dictGet sen.rssi_history t (0 : K)) ∈ sen.rssi_history :=
        dictGet_mem hmem
      rwa [← hstr] at h2
    · intro u v huv
      have hv : v = dictGet sen.rssi_history u 0 := eq_dictGet_of_mem hnd huv
      have hu : u ∈ dictKeys sen.rssi_history := List.mem_map_of_mem Prod.fst huv
      rw [hv]
      exact hmax u hu
    · exact hfirst
  · intro nm2 a t v
    simp [RoutePoint.get_strongest_signal, Sensor.has_readings, maxByKey,
      dictKeys, dictGet, dictFind?]

/-- Witness for C4: at the history `[(3, -50), (7, -50)]` (two equal
maxima) the earliest timestamp wins: the result is `(3, -50)`, and
instantiating the theorem yields its membership in the history. -/
theorem claim4_single_sensor_strongest_signal_witness :
    ((3 : Timestamp), (-50 : Int)) ∈
      ([(3, -50), (7, -50)] : List (Timestamp × Int)) := by
  have h := (claim4_single_sensor_strongest_signal (K := Int) .START "start"
      ⟨"start_1", "00:11:22:33:44:55", [(3, -50), (7, -50)]⟩
      (by decide)).2.1 3 (-50) (by decide)
  exact h.1

end BRT

namespace BRT

/-! ### Claim theorems: route queries -/

/-- C3: `get_total_time` returns `None` iff either the start point or the
end point lacks a best signal; otherwise it returns the start best-signal
timestamp, the end best-signal timestamp, and the duration
`end_ts - start_ts` in seconds, returned as-is — possibly negative when
the end timestamp precedes the start timestamp, as in the final concrete
conjunct (start best at `t = 10`, end best at `t = 3`, duration `-7`). -/
theorem claim3_get_total_time {K : Type} [LinearOrderedAddCommGroup K]
    (r : Route K) :
    (r.get_total_time = none ↔
      r.start.get_strongest_signal = none ∨
        r.«end».get_strongest_signal = none) ∧
    (∀ rt, r.get_total_time = some rt →
      ∃ ss es, r.start.get_strongest_signal = some ss ∧
        r.«end».get_strongest_signal = some es ∧
        rt.start_time = ss.timestamp ∧ rt.end_time = es.timestamp ∧
        rt.duration_seconds = es.timestamp - ss.timestamp) ∧
    (Route.get_total_time (K := Int)
        ⟨"r", .single .START "start" ⟨"s", "S", [(10, -40)]⟩,
          .single .END "end" ⟨"e", "E", [(3, -42)]⟩, []⟩ =
      some ⟨10, 3, -7⟩) := by
  refine ⟨?_, ?_, by decide⟩
  · unfold Route.get_total_time
    cases hs : r.start.get_strongest_signal <;>
      cases he : r.«end».get_strongest_signal <;> simp
  · intro rt h
    unfold Route.get_total_time at h
    cases hs : r.start.get_strongest_signal with
    | none => rw [hs] at h; simp at h
    | some ss =>
        cases he : r.«end».get_strongest_signal with
        | none => rw [hs, he] at h; simp at h
        | some es =>
            rw [hs, he] at h
            simp only [Option.some.injEq] at h
            exact ⟨ss, es, rfl, rfl, by rw [← h], by rw [← h], by rw [← h]⟩

/-- Witness for C3: instantiating the theorem at the negative-duration
route returns the start/end best signals and the duration `-7`. -/
theorem claim3_get_total_time_witness :
    ∃ ss es,
      (RoutePoint.single (K := Int) .START "start"
          ⟨"s", "S", [(10, -40)]⟩).get_strongest_signal = some ss ∧
      (RoutePoint.single (K := Int) .END "end"
          ⟨"e", "E", [(3, -42)]⟩).get_strongest_signal = some es ∧
      (10 : Timestamp) = ss.timestamp ∧ (3 : Timestamp) = es.timestamp ∧
      (-7 : Int) = es.timestamp - ss.timestamp := by
  have h := (claim3_get_total_time (K := Int)
      ⟨"r", .single .START "start" ⟨"s", "S", [(10, -40)]⟩,
        .single .END "end" ⟨"e", "E", [(3, -42)]⟩, []⟩).2.1
      ⟨10, 3, -7⟩ (by decide)
  exact h

/-- C5: `get_point_passages` contains exactly one entry per route point
whose best signal exists (a permutation of the collected entries, points
without a best signal omitted), sorted by best-signal timestamp ascending
regardless of the declared point order.  The concrete conjuncts: a route
with start/end readings at `T = 0` and `T + 10` yields exactly the two
passages in that order, and a route whose end is passed before its start
(readings at 5 and 20) lists the end point first despite the declared
order. -/
theorem claim5_get_point_passages {K : Type} [LinearOrderedAddCommGroup K]
    (r : Route K) :
    List.Pairwise (fun a b : RoutePassage K => a.timestamp ≤ b.timestamp)
      r.get_point_passages ∧
    r.get_point_passages.Perm r.collectPassages ∧
    ((Route.get_point_passages (K := Int)
        ⟨"r", .single .START "start" ⟨"s", "S", [(0, -40)]⟩,
          .single .END "end" ⟨"e", "E", [(10, -41)]⟩, []⟩).map
        (fun p => p.timestamp) = [0, 10]) ∧
    ((Route.get_point_passages (K := Int)
        ⟨"r", .single .START "start" ⟨"s", "S", [(20, -40)]⟩,
          .single .END "end" ⟨"e", "E", [(5, -42)]⟩, []⟩).map
        (fun p => (p.point, p.timestamp)) =
      [(.single .END "end" ⟨"e", "E", [(5, -42)]⟩, 5),
        (.single .START "start" ⟨"s", "S", [(20, -40)]⟩, 20)]) := by
  refine ⟨?_, ?_, by decide, by decide⟩
  · exact List.sorted_insertionSort passageLE r.collectPassages
  · exact List.perm_insertionSort passageLE r.collectPassages

end BRT

namespace BRT

/-! ### Claim theorems: scan-loop step behaviour -/

theorem strongerThanLast_iff {K : Type} [LinearOrderedAddCommGroup K]
    {last : Option (SignalReading K)} {sig : SignalReading K} :
    strongerThanLast last sig = true ↔
      (last = none ∨ ∃ l, last = some l ∧ l.strength < sig.strength) := by
  cases last with
  | none => simp [strongerThanLast]
  | some l => simp [strongerThanLast]

/-- C9: a reading whose address is not in the route's address-to-sensor
lookup leaves every sensor history (the whole route), `last_end_signal`,
the completion timer and the absolute timer unchanged. -/
theorem claim9_unknown_address_frame {K : Type} [LinearOrderedAddCommGroup K]
    (st : ScanState K) (r : DeviceReading K)
    (h : r.address ∉ st.route.get_known_addresses) :
    (scanStep st r).route = st.route ∧
    (scanStep st r).last_end_signal = st.last_end_signal ∧
    (scanStep st r).end_timer = st.end_timer ∧
    (scanStep st r).absolute_end_timer = st.absolute_end_timer := by
  have hfind : dictFind? st.route.get_mac_to_sensor_lookup r.address = none :=
    dictFind?_eq_none_iff.mpr h
  unfold scanStep
  split
  · exact ⟨rfl, rfl, rfl, rfl⟩
  · split
    · exact ⟨rfl, rfl, rfl, rfl⟩
    · rw [hfind]
      exact ⟨rfl, rfl, rfl, rfl⟩

/-- Witness for C9: a reading from the unknown address `"X"` leaves the
one-sensor-start / one-sensor-end route state untouched. -/
theorem claim9_unknown_address_frame_witness :
    (scanStep (initialScanState (K := Int)
        ⟨"r", .single .START "start" ⟨"s", "S", []⟩,
          .single .END "end" ⟨"e", "E", []⟩, []⟩) ⟨"X", 0, -50⟩).route =
      (initialScanState (K := Int)
        ⟨"r", .single .START "start" ⟨"s", "S", []⟩,
          .single .END "end" ⟨"e", "E", []⟩, []⟩).route :=
  (claim9_unknown_address_frame _ _ (by decide)).1

/-- C6: when the scan loop appends an end-sensor reading (it is consuming
readings: not finished, neither timer expired, the address resolves to a
sensor of the end point), the completion timer is cancelled and restarted
(a fresh deadline one `SCAN_END_TIMER_DURATION_SEC` after the reading)
and `last_end_signal` is updated to the recomputed end best signal,
exactly when that best signal exists and is strictly stronger than
`last_end_signal` (or no `last_end_signal` was recorded); otherwise both
are left unchanged. -/
theorem claim6_completion_timer_restart {K : Type}
    [LinearOrderedAddCommGroup K] (st : ScanState K) (r : DeviceReading K)
    (sensor : Sensor K)
    (hfin : st.finished = false)
    (ht : timerDone st.end_timer r.timestamp = false)
    (ha : timerDone st.absolute_end_timer r.timestamp = false)
    (hlk : dictFind? st.route.get_mac_to_sensor_lookup r.address = some sensor)
    (hend : (st.route.addReading r.address r.rssi r.timestamp).is_end_sensor
      (sensor.add_rssi r.rssi r.timestamp) = true) :
    ((∃ sig, (st.route.addReading r.address r.rssi
          r.timestamp).«end».get_strongest_signal = some sig ∧
        (st.last_end_signal = none ∨
          ∃ l, st.last_end_signal = some l ∧ l.strength < sig.strength)) →
      (scanStep st r).end_timer = some (r.timestamp + SCAN_END_TIMER_DURATION_SEC) ∧
      (scanStep st r).last_end_signal =
        (st.route.addReading r.address r.rssi
          r.timestamp).«end».get_strongest_signal) ∧
    ((¬ ∃ sig, (st.route.addReading r.address r.rssi
          r.timestamp).«end».get_strongest_signal = some sig ∧
        (st.last_end_signal = none ∨
          ∃ l, st.last_end_signal = some l ∧ l.strength < sig.strength)) →
      (scanStep st r).end_timer = st.end_timer ∧
      (scanStep st r).last_end_signal = st.last_end_signal) := by
  unfold scanStep
  rw [hfin, ht, ha, hlk]
  simp only [Bool.false_eq_true, if_false, Bool.or_self]
  rw [if_pos hend]
  split
  next hsig =>
      constructor
      · rintro ⟨sig, hs, _⟩
        rw [hsig] at hs
        exact Option.noConfusion hs
      · intro _
        exact ⟨rfl, rfl⟩
  next end_signal hsig =>
      constructor
      · rintro ⟨sig, hs, hcond⟩
        rw [hsig] at hs
        obtain rfl := Option.some.inj hs
        have hstr : strongerThanLast st.last_end_signal end_signal = true :=
          strongerThanLast_iff.mpr hcond
        rw [if_pos hstr]
        exact ⟨rfl, by rw [hsig]⟩
      · intro hn
        have hstr : strongerThanLast st.last_end_signal end_signal = false := by
          cases hb : strongerThanLast st.last_end_signal end_signal
          · rfl
          · exact absurd ⟨end_signal, hsig, strongerThanLast_iff.mp hb⟩ hn
        rw [if_neg (by rw [hstr]; exact Bool.false_ne_true)]
        exact ⟨rfl, rfl⟩

/-- Witness for C6: the first end reading of a fresh route (no
`last_end_signal`) produces an end best signal and starts a 15-second
completion timer. -/
theorem claim6_completion_timer_restart_witness :
    (scanStep (initialScanState (K := Int)
        ⟨"r", .single .START "start" ⟨"s", "S", []⟩,
          .single .END "end" ⟨"e", "E", []⟩, []⟩)
        ⟨"E", 0, -50⟩).end_timer = some (0 + SCAN_END_TIMER_DURATION_SEC) ∧
    (scanStep (initialScanState (K := Int)
        ⟨"r", .single .START "start" ⟨"s", "S", []⟩,
          .single .END "end" ⟨"e", "E", []⟩, []⟩)
        ⟨"E", 0, -50⟩).last_end_signal =
      (Route.addReading (K := Int)
        ⟨"r", .single .START "start" ⟨"s", "S", []⟩,
          .single .END "end" ⟨"e", "E", []⟩, []⟩ "E" (-50) 0).«end».get_strongest_signal :=
  (claim6_completion_timer_restart
      (initialScanState (K := Int)
        ⟨"r", .single .START "start" ⟨"s", "S", []⟩,
          .single .END "end" ⟨"e", "E", []⟩, []⟩)
      ⟨"E", 0, -50⟩ ⟨"e", "E", []⟩ (by decide) (by decide) (by decide)
      (by decide) (by decide)).1 ⟨⟨0, -50⟩, by decide, Or.inl (by decide)⟩

end BRT

namespace BRT

/-! ### The absolute timer across a run (C7 infrastructure) -/

section ScanRunLemmas

variable {K : Type} [LinearOrderedAddCommGroup K]

/-- Whether a route point owns a sensor with the given MAC address. -/
def pointHasAddress {K : Type} (p : RoutePoint K) (a : String) : Bool :=
  match p with
  | .single _ _ s => decide (s.address = a)
  | .dual _ _ s1 s2 => decide (s1.address = a) || decide (s2.address = a)

omit [LinearOrderedAddCommGroup K] in
theorem addReading_of_not_hasAddress {p : RoutePoint K} {a : String}
    (h : pointHasAddress p a = false) (rssi : K) (ts : Timestamp) :
    p.addReading a rssi ts = p := by
  cases p with
  | single ty nm s =>
      simp only [pointHasAddress, decide_eq_false_iff_not] at h
      simp [RoutePoint.addReading, Sensor.addIfAddress, h]
  | dual ty nm s1 s2 =>
      simp only [pointHasAddress, Bool.or_eq_false_iff,
        decide_eq_false_iff_not] at h
      simp [RoutePoint.addReading, Sensor.addIfAddress, h.1, h.2]

/-- When the end point owns the reading's address, the sensor stored in
the address lookup for that address is one of the end point's sensors
(the end point is walked last when the lookup dict is built, so its
sensors overwrite any earlier same-address entry), and after the
mutation the end point recognises it. -/
theorem endHasAddress_lookup (r : Route K) {a : String}
    (hpa : pointHasAddress r.«end» a = true) (rssi : K) (ts : Timestamp) :
    ∀ sensor, dictFind? r.get_mac_to_sensor_lookup a = some sensor →
      (r.«end».addReading a rssi ts).has_sensor (sensor.add_rssi rssi ts) = true := by
  intro sensor hfind
  have hlookup : r.get_mac_to_sensor_lookup =
      (match r.«end» with
        | .dual _ _ s1 s2 =>
            dictInsert s2.address s2 (dictInsert s1.address s1
              (([r.start] ++ r.checkpoints).foldl (fun lookup point =>
                match point with
                | .dual _ _ s1 s2 =>
                    dictInsert s2.address s2 (dictInsert s1.address s1 lookup)
                | .single _ _ s => dictInsert s.address s lookup) []))
        | .single _ _ s =>
            dictInsert s.address s
              (([r.start] ++ r.checkpoints).foldl (fun lookup point =>
                match point with
                | .dual _ _ s1 s2 =>
                    dictInsert s2.address s2 (dictInsert s1.address s1 lookup)
                | .single _ _ s => dictInsert s.address s lookup) [])) := by
    unfold Route.get_mac_to_sensor_lookup Route.get_all_points
    rw [List.foldl_append]
    cases r.«end» with
    | single ty nm s => rfl
    | dual ty nm s1 s2 => rfl
  cases hend : r.«end» with
  | single ty nm e =>
      rw [hend] at hlookup hpa
      simp only [pointHasAddress, decide_eq_true_eq] at hpa
      rw [hlookup] at hfind
      simp only at hfind
      rw [hpa] at hfind
      rw [dictFind?_insert_self] at hfind
      obtain rfl := Option.some.inj hfind
      simp [RoutePoint.addReading, RoutePoint.has_sensor, Sensor.addIfAddress, hpa]
  | dual ty nm d1 d2 =>
      rw [hend] at hlookup hpa
      simp only [pointHasAddress, Bool.or_eq_true, decide_eq_true_eq] at hpa
      rw [hlookup] at hfind
      simp only at hfind
      by_cases h2 : d2.address = a
      · rw [h2, dictFind?_insert_self] at hfind
        obtain rfl := Option.some.inj hfind
        simp [RoutePoint.addReading, RoutePoint.has_sensor, Sensor.addIfAddress, h2]
      · have h1 : d1.address = a := by
          rcases hpa with h | h
          · exact h
          · exact absurd h h2
        rw [dictFind?_insert_ne _ h2, h1, dictFind?_insert_self] at hfind
        obtain rfl := Option.some.inj hfind
        simp [RoutePoint.addReading, RoutePoint.has_sensor, Sensor.addIfAddress, h1, h2]

theorem end_unchanged_of_not_end_sensor {rt : Route K}
    {a : String} {rssi : K} {ts : Timestamp} {sensor : Sensor K}
    (hlk : dictFind? rt.get_mac_to_sensor_lookup a = some sensor)
    (hne : (rt.addReading a rssi ts).is_end_sensor (sensor.add_rssi rssi ts) = false) :
    (rt.addReading a rssi ts).«end» = rt.«end» := by
  by_cases hpa : pointHasAddress rt.«end» a = true
  · have := endHasAddress_lookup rt hpa rssi ts sensor hlk
    have hend : (rt.addReading a rssi ts).is_end_sensor
        (sensor.add_rssi rssi ts) = true := this
    rw [hend] at hne
    exact Bool.noConfusion hne
  · have hpa2 : pointHasAddress rt.«end» a = false :=
      Bool.eq_false_iff.mpr hpa
    exact addReading_of_not_hasAddress hpa2 rssi ts

omit [LinearOrderedAddCommGroup K] in
theorem mem_dictKeys_addIfAddress {t : Timestamp} {s : Sensor K}
    {a : String} {rssi : K} {ts : Timestamp}
    (h : t ∈ dictKeys s.rssi_history) :
    t ∈ dictKeys (s.addIfAddress a rssi ts).rssi_history := by
  unfold Sensor.addIfAddress
  split
  · exact mem_dictKeys_insert _ h
  · exact h

/-- Appending a reading never destroys an existing best signal. -/
theorem strongest_isSome_addReading {p : RoutePoint K} (a : String)
    (rssi : K) (ts : Timestamp)
    (h : p.get_strongest_signal ≠ none) :
    (p.addReading a rssi ts).get_strongest_signal ≠ none := by
  cases p with
  | single ty nm s =>
      rw [Ne, single_strongest_eq_none_iff] at h
      show (RoutePoint.single ty nm (s.addIfAddress a rssi ts)).get_strongest_signal ≠ none
      rw [Ne, single_strongest_eq_none_iff]
      unfold Sensor.addIfAddress
      split
      · exact dictInsert_ne_nil _ _ _
      · exact h
  | dual ty nm s1 s2 =>
      rw [Ne, dual_strongest_eq_none_iff] at h
      obtain ⟨t, ht⟩ := List.exists_mem_of_ne_nil _ h
      obtain ⟨ht1, ht2⟩ := mem_commonTimes.mp ht
      show (RoutePoint.dual ty nm (s1.addIfAddress a rssi ts)
          (s2.addIfAddress a rssi ts)).get_strongest_signal ≠ none
      rw [Ne, dual_strongest_eq_none_iff]
      intro hnil
      have hmem : t ∈ commonTimes (s1.addIfAddress a rssi ts)
          (s2.addIfAddress a rssi ts) :=
        mem_commonTimes.mpr
          ⟨mem_dictKeys_addIfAddress ht1, mem_dictKeys_addIfAddress ht2⟩
      rw [hnil] at hmem
      exact absurd hmem (List.not_mem_nil t)

/-- The loop invariant behind C7: as long as the absolute timer has not
been started, no end best signal has ever existed, no completion timer
runs, no `last_end_signal` is recorded and the loop has not broken; and
once the absolute timer runs, an end best signal exists. -/
def scanInv (st : ScanState K) : Prop :=
  (st.absolute_end_timer = none →
    st.route.«end».get_strongest_signal = none ∧ st.end_timer = none ∧
    st.last_end_signal = none ∧ st.finished = false) ∧
  (∀ d, st.absolute_end_timer = some d →
    st.route.«end».get_strongest_signal ≠ none)

theorem scanInv_step {st : ScanState K} (r : DeviceReading K)
    (h : scanInv st) : scanInv (scanStep st r) := by
  obtain ⟨h1, h2⟩ := h
  unfold scanStep
  split
  · exact ⟨h1, h2⟩
  · split
    next htimer =>
        constructor
        · intro habs
          obtain ⟨_, het, _, _⟩ := h1 habs
          rw [het, habs] at htimer
          simp [timerDone] at htimer
        · intro d hd
          exact h2 d hd
    next htimer =>
        split
        next => exact ⟨h1, h2⟩
        next sensor hlk =>
            split
            next hend =>
                split
                next hsig =>
                    constructor
                    · intro habs
                      obtain ⟨hbest, het, hlast, hfin⟩ := h1 habs
                      exact ⟨hsig, het, hlast, hfin⟩
                    · intro d hd
                      have := strongest_isSome_addReading r.address r.rssi
                        r.timestamp (h2 d hd)
                      exact absurd hsig this
                next end_signal hsig =>
                    have habs' : (match st.absolute_end_timer with
                        | none => some (r.timestamp + ABSOLUTE_END_TIMER_DURATION_SEC)
                        | some d => some d) ≠ none := by
                      cases st.absolute_end_timer <;> simp
                    split
                    next =>
                        constructor
                        · intro habs
                          exact absurd habs habs'
                        · intro d _
                          rw [hsig]
                          exact Option.noConfusion
                    next =>
                        constructor
                        · intro habs
                          exact absurd habs habs'
                        · intro d _
                          rw [hsig]
                          exact Option.noConfusion
            next hend =>
                have hne : (st.route.addReading r.address r.rssi
                    r.timestamp).is_end_sensor
                    (sensor.add_rssi r.rssi r.timestamp) = false :=
                  Bool.eq_false_iff.mpr hend
                have hendeq := end_unchanged_of_not_end_sensor hlk hne
                constructor
                · intro habs
                  obtain ⟨hbest, het, hlast, hfin⟩ := h1 habs
                  rw [hendeq]
                  exact ⟨hbest, het, hlast, hfin⟩
                · intro d hd
                  rw [hendeq]
                  exact h2 d hd

theorem scanStep_absolute_persist {st : ScanState K} (r : DeviceReading K)
    {d : Timestamp} (h : st.absolute_end_timer = some d) :
    (scanStep st r).absolute_end_timer = some d := by
  unfold scanStep
  split
  · exact h
  · split
    · exact h
    · split
      next => exact h
      next sensor hlk =>
          split
          next hend =>
              split
              next hsig => exact h
              next end_signal hsig =>
                  split
                  next => simp [h]
                  next => simp [h]
          next hend => exact h

theorem scanRun_absolute_persist {rs : List (DeviceReading K)} :
    ∀ {st : ScanState K} {d : Timestamp}, st.absolute_end_timer = some d →
      (scanRun st rs).absolute_end_timer = some d := by
  induction rs with
  | nil => intro st d h; exact h
  | cons r rest ih =>
      intro st d h
      exact ih (scanStep_absolute_persist r h)

theorem scanInv_run {rs : List (DeviceReading K)} :
    ∀ {st : ScanState K}, scanInv st → scanInv (scanRun st rs) := by
  induction rs with
  | nil => intro st h; exact h
  | cons r rest ih => intro st h; exact ih (scanInv_step r h)

theorem scanStep_absolute_start {st : ScanState K} {r : DeviceReading K}
    {d : Timestamp} (hnone : st.absolute_end_timer = none)
    (hsome : (scanStep st r).absolute_end_timer = some d) :
    d = r.timestamp + ABSOLUTE_END_TIMER_DURATION_SEC := by
  unfold scanStep at hsome
  split at hsome
  · simp [hnone] at hsome
  · split at hsome
    · simp [hnone] at hsome
    · split at hsome
      next => simp [hnone] at hsome
      next sensor hlk =>
          split at hsome
          next hend =>
              split at hsome
              next hsig => simp [hnone] at hsome
              next end_signal hsig =>
                  split at hsome
                  next =>
                      simp only [hnone] at hsome
                      simp at hsome
                      exact hsome.symm
                  next =>
                      simp only [hnone] at hsome
                      simp at hsome
                      exact hsome.symm
          next hend => simp [hnone] at hsome

theorem initial_scanInv {route : Route K}
    (h : route.«end».get_strongest_signal = none) :
    scanInv (initialScanState route) := by
  constructor
  · intro _
    exact ⟨h, rfl, rfl, rfl⟩
  · intro d hd
    exact Option.noConfusion hd

end ScanRunLemmas

end BRT

namespace BRT

/-- C7: over a run of the scan loop on a fresh route (no end best signal
yet), the absolute timer is started exactly once — after any prefix of
the run it is running if and only if the end point's best signal exists,
so it starts at precisely the first reading after which that best signal
exists; its deadline is that reading's time plus
`ABSOLUTE_END_TIMER_DURATION_SEC`; and once set it is never cancelled or
restarted by any later reading. -/
theorem claim7_absolute_timer_started_once {K : Type}
    [LinearOrderedAddCommGroup K] (route : Route K)
    (h : route.«end».get_strongest_signal = none) :
    (∀ p : List (DeviceReading K),
      ((scanRun (initialScanState route) p).absolute_end_timer = none ↔
        (scanRun (initialScanState route) p).route.«end».get_strongest_signal =
          none)) ∧
    (∀ (st : ScanState K) (rest : List (DeviceReading K)) (d : Timestamp),
      st.absolute_end_timer = some d →
      (scanRun st rest).absolute_end_timer = some d) ∧
    (∀ (p : List (DeviceReading K)) (r : DeviceReading K) (d : Timestamp),
      (scanRun (initialScanState route) p).absolute_end_timer = none →
      (scanRun (initialScanState route) (p ++ [r])).absolute_end_timer = some d →
      d = r.timestamp + ABSOLUTE_END_TIMER_DURATION_SEC) := by
  refine ⟨?_, ?_, ?_⟩
  · intro p
    have hinv : scanInv (scanRun (initialScanState route) p) :=
      scanInv_run (initial_scanInv h)
    constructor
    · intro habs
      exact (hinv.1 habs).1
    · intro hbest
      cases habs : (scanRun (initialScanState route) p).absolute_end_timer with
      | none => rfl
      | some d => exact absurd hbest (hinv.2 d habs)
  · intro st rest d hd
    exact scanRun_absolute_persist hd
  · intro p r d hnone hsome
    have happ : scanRun (initialScanState route) (p ++ [r]) =
        scanStep (scanRun (initialScanState route) p) r := by
      unfold scanRun
      rw [List.foldl_append]
      rfl
    rw [happ] at hsome
    exact scanStep_absolute_start hnone hsome

/-- Witness for C7: on a fresh single-sensor route, after the one-reading
run `[("E", 0, -50)]` the absolute timer is running iff the end best
signal exists (both hold: the timer deadline is 30). -/
theorem claim7_absolute_timer_started_once_witness :
    ((scanRun (initialScanState (K := Int)
        ⟨"r", .single .START "start" ⟨"s", "S", []⟩,
          .single .END "end" ⟨"e", "E", []⟩, []⟩)
        [⟨"E", 0, -50⟩]).absolute_end_timer = none ↔
      (scanRun (initialScanState (K := Int)
        ⟨"r", .single .START "start" ⟨"s", "S", []⟩,
          .single .END "end" ⟨"e", "E", []⟩, []⟩)
        [⟨"E", 0, -50⟩]).route.«end».get_strongest_signal = none) :=
  (claim7_absolute_timer_started_once (K := Int)
      ⟨"r", .single .START "start" ⟨"s", "S", []⟩,
        .single .END "end" ⟨"e", "E", []⟩, []⟩ (by decide)).1
    [⟨"E", 0, -50⟩]

end BRT

namespace BRT

/-! ### Monotonicity of the best signal under fresh appends (C10) -/

section MonotoneLemmas

variable {K : Type} [LinearOrderedAddCommGroup K]

theorem dictGet_insert_fresh_old {d : List (Timestamp × K)} {t ts : Timestamp}
    (hfresh : ts ∉ dictKeys d) (ht : t ∈ dictKeys d) (v : K) :
    dictGet (dictInsert ts v d) t 0 = dictGet d t 0 := by
  rw [dictInsert_fresh v hfresh]
  exact dictGet_append_left ht

theorem tieBreak_congr {s1 s2 s1' s2' : Sensor K} {stimes : List Timestamp}
    {sc : Timestamp}
    (h : ∀ t ∈ stimes, signalBalance s1' s2' t = signalBalance s1 s2 t) :
    tieBreak s1' s2' stimes sc = tieBreak s1 s2 stimes sc := by
  match stimes with
  | [] => rfl
  | [t] => rfl
  | t0 :: t1 :: rest =>
      show (minByKey (signalBalance s1' s2') (t0 :: t1 :: rest)).getD sc =
        (minByKey (signalBalance s1 s2) (t0 :: t1 :: rest)).getD sc
      rw [minByKey_congr h]

/-- The dual-sensor best signal only depends on the common timestamps and
the sensors' values at those timestamps. -/
theorem dual_strongest_congr {s1 s2 s1' s2' : Sensor K}
    (ty : PointType) (nm : String)
    (hcom : commonTimes s1' s2' = commonTimes s1 s2)
    (hg1 : ∀ t ∈ commonTimes s1 s2,
      dictGet s1'.rssi_history t 0 = dictGet s1.rssi_history t 0)
    (hg2 : ∀ t ∈ commonTimes s1 s2,
      dictGet s2'.rssi_history t 0 = dictGet s2.rssi_history t 0) :
    (RoutePoint.dual ty nm s1' s2').get_strongest_signal =
      (RoutePoint.dual ty nm s1 s2).get_strongest_signal := by
  have hcomb : ∀ t ∈ commonTimes s1 s2,
      combinedStrength s1' s2' t = combinedStrength s1 s2 t := by
    intro t ht
    unfold combinedStrength
    rw [hg1 t ht, hg2 t ht]
  have hbal : ∀ t ∈ commonTimes s1 s2,
      signalBalance s1' s2' t = signalBalance s1 s2 t := by
    intro t ht
    unfold signalBalance
    rw [hg1 t ht, hg2 t ht]
  simp only [RoutePoint.get_strongest_signal]
  rw [hcom, maxByKey_congr hcomb]
  cases hm : maxByKey (combinedStrength s1 s2) (commonTimes s1 s2) with
  | none => rfl
  | some sc =>
      simp only []
      have hsc : sc ∈ commonTimes s1 s2 := maxByKey_mem hm
      have hfil : (commonTimes s1 s2).filter
            (fun t => decide (combinedStrength s1' s2' t =
              combinedStrength s1' s2' sc)) =
          (commonTimes s1 s2).filter
            (fun t => decide (combinedStrength s1 s2 t =
              combinedStrength s1 s2 sc)) := by
        refine List.filter_congr ?_
        intro t ht
        rw [hcomb t ht, hcomb sc hsc]
      rw [hfil]
      have hscin : sc ∈ (commonTimes s1 s2).filter
          (fun t => decide (combinedStrength s1 s2 t =
            combinedStrength s1 s2 sc)) :=
        List.mem_filter.mpr ⟨hsc, by simp⟩
      have hsub : ∀ t ∈ (commonTimes s1 s2).filter
          (fun t => decide (combinedStrength s1 s2 t =
            combinedStrength s1 s2 sc)), t ∈ commonTimes s1 s2 := by
        intro t ht
        exact (List.mem_filter.mp ht).1
      have htb : tieBreak s1' s2'
          ((commonTimes s1 s2).filter
            (fun t => decide (combinedStrength s1 s2 t =
              combinedStrength s1 s2 sc))) sc =
          tieBreak s1 s2
            ((commonTimes s1 s2).filter
              (fun t => decide (combinedStrength s1 s2 t =
                combinedStrength s1 s2 sc))) sc :=
        tieBreak_congr (fun t ht => hbal t (hsub t ht))
      rw [htb]
      have htbmem := (tieBreak_spec s1 s2 _ sc hscin).1
      rw [hcomb _ (hsub _ htbmem)]

omit [LinearOrderedAddCommGroup K] in
theorem commonTimes_addFresh1 {s1 s2 : Sensor K} {ts : Timestamp} (v : K)
    (h1 : ts ∉ dictKeys s1.rssi_history) (h2 : ts ∉ dictKeys s2.rssi_history) :
    commonTimes (s1.add_rssi v ts) s2 = commonTimes s1 s2 := by
  unfold commonTimes
  show (dictKeys (dictInsert ts v s1.rssi_history)).filter _ = _
  rw [dictKeys_insert_fresh v h1, List.filter_append]
  simp [h2]

omit [LinearOrderedAddCommGroup K] in
theorem commonTimes_addFresh2 {s1 s2 : Sensor K} {ts : Timestamp} (v : K)
    (h1 : ts ∉ dictKeys s1.rssi_history) (h2 : ts ∉ dictKeys s2.rssi_history) :
    commonTimes s1 (s2.add_rssi v ts) = commonTimes s1 s2 := by
  unfold commonTimes
  show (dictKeys s1.rssi_history).filter
      (fun t => decide (t ∈ dictKeys (dictInsert ts v s2.rssi_history))) = _
  refine List.filter_congr ?_
  intro t ht
  have htne : t ≠ ts := fun he => h1 (he ▸ ht)
  rw [dictKeys_insert_fresh v h2]
  simp [List.mem_append, htne]

end MonotoneLemmas

/-- C10: appending a reading at a timestamp not already present in any of
a route point's sensor histories never decreases the point's best-signal
strength.  For a single-sensor point the maximum strength is monotone
non-decreasing; for a dual-sensor point the best signal is unchanged
outright (the common-timestamp set and the values on it are untouched),
hence non-decreasing — this is what makes the scan loop's
strictly-stronger comparison against `last_end_signal` meaningful. -/
theorem claim10_fresh_append_monotone {K : Type}
    [LinearOrderedAddCommGroup K] :
    (∀ (ty : PointType) (nm : String) (sen : Sensor K) (v : K) (ts : Timestamp),
      ts ∉ dictKeys sen.rssi_history →
      ∀ sig, (RoutePoint.single ty nm sen).get_strongest_signal = some sig →
        ∃ sig2, (RoutePoint.single ty nm
            (sen.add_rssi v ts)).get_strongest_signal = some sig2 ∧
          sig.strength ≤ sig2.strength) ∧
    (∀ (ty : PointType) (nm : String) (s1 s2 : Sensor K) (v : K) (ts : Timestamp),
      ts ∉ dictKeys s1.rssi_history → ts ∉ dictKeys s2.rssi_history →
      ∀ sig, (RoutePoint.dual ty nm s1 s2).get_strongest_signal = some sig →
        (∃ sig2, (RoutePoint.dual ty nm (s1.add_rssi v ts)
            s2).get_strongest_signal = some sig2 ∧
          sig.strength ≤ sig2.strength) ∧
        (∃ sig2, (RoutePoint.dual ty nm s1
            (s2.add_rssi v ts)).get_strongest_signal = some sig2 ∧
          sig.strength ≤ sig2.strength)) := by
  constructor
  · intro ty nm sen v ts hfresh sig hsig
    obtain ⟨hmem, hstr, hmax, _⟩ := single_strongest_some_spec hsig
    have hne : (sen.add_rssi v ts).rssi_history ≠ [] := by
      show dictInsert ts v sen.rssi_history ≠ []
      exact dictInsert_ne_nil _ _ _
    obtain ⟨sig2, hsig2⟩ := @single_strongest_isSome K _ ty nm _ hne
    refine ⟨sig2, hsig2, ?_⟩
    obtain ⟨_, hstr2, hmax2, _⟩ := single_strongest_some_spec hsig2
    have hkeys2 : dictKeys (sen.add_rssi v ts).rssi_history =
        dictKeys sen.rssi_history ++ [ts] := by
      show dictKeys (dictInsert ts v sen.rssi_history) = _
      exact dictKeys_insert_fresh v hfresh
    have hmem2 : sig.timestamp ∈ dictKeys (sen.add_rssi v ts).rssi_history := by
      rw [hkeys2]
      exact List.mem_append_left _ hmem
    have hget2 : dictGet (sen.add_rssi v ts).rssi_history sig.timestamp 0 =
        dictGet sen.rssi_history sig.timestamp 0 :=
      dictGet_insert_fresh_old hfresh hmem v
    calc sig.strength = dictGet sen.rssi_history sig.timestamp 0 := hstr
      _ = dictGet (sen.add_rssi v ts).rssi_history sig.timestamp 0 := hget2.symm
      _ ≤ sig2.strength := hmax2 _ hmem2
  · intro ty nm s1 s2 v ts h1 h2 sig hsig
    have heq1 : (RoutePoint.dual ty nm (s1.add_rssi v ts)
        s2).get_strongest_signal =
        (RoutePoint.dual ty nm s1 s2).get_strongest_signal := by
      refine dual_strongest_congr ty nm (commonTimes_addFresh1 v h1 h2) ?_ ?_
      · intro t ht
        exact dictGet_insert_fresh_old h1 (mem_commonTimes.mp ht).1 v
      · intro t ht
        rfl
    have heq2 : (RoutePoint.dual ty nm s1
        (s2.add_rssi v ts)).get_strongest_signal =
        (RoutePoint.dual ty nm s1 s2).get_strongest_signal := by
      refine dual_strongest_congr ty nm (commonTimes_addFresh2 v h1 h2) ?_ ?_
      · intro t ht
        rfl
      · intro t ht
        exact dictGet_insert_fresh_old h2 (mem_commonTimes.mp ht).2 v
    constructor
    · exact ⟨sig, heq1 ▸ hsig, le_refl _⟩
    · exact ⟨sig, heq2 ▸ hsig, le_refl _⟩

/-- Witness for C10: appending a fresh weaker reading `(5, -80)` to the
history `[(3, -50)]` keeps the best strength at `-50` (the theorem
returns some best signal at least as strong as the old `-50`). -/
theorem claim10_fresh_append_monotone_witness :
    ∃ sig2, (RoutePoint.single (K := Int) .END "end"
        (Sensor.add_rssi ⟨"e", "E", [(3, -50)]⟩ (-80) 5)).get_strongest_signal =
        some sig2 ∧ (-50 : Int) ≤ sig2.strength := by
  have h := (claim10_fresh_append_monotone (K := Int)).1 .END "end"
    ⟨"e", "E", [(3, -50)]⟩ (-80) 5 (by decide) ⟨3, -50⟩ (by decide)
  exact h

end BRT

namespace BRT

/-! ### The scan loop on a stream that goes silent (C2) and the exit
paths of the loop (C8) -/

/-- A minimal route for the scan-loop scenarios: single-sensor start at
address `"S"`, single-sensor end at address `"E"`, fresh histories. -/
def routeC2 : Route Int :=
  ⟨"r", .single .START "start" ⟨"s", "S", []⟩,
    .single .END "end" ⟨"e", "E", []⟩, []⟩

/-- A scanner run that yields one end reading at `t = 0` and then goes
silent: every later 0.1 s poll of `scan_devices` hits the
`asyncio.TimeoutError` branch and `continue`s without yielding. -/
def silentAfterOne : Nat → Option (DeviceReading Int) :=
  fun n => if n = 0 then some ⟨"E", 0, -50⟩ else none

theorem deliveredBy_silentAfterOne (n : Nat) :
    deliveredBy silentAfterOne n = [] ∨
      deliveredBy silentAfterOne n = [⟨"E", 0, -50⟩] := by
  induction n with
  | zero => exact Or.inl rfl
  | succ m ih =>
      have hstep : deliveredBy silentAfterOne (m + 1) =
          deliveredBy silentAfterOne m ++ (silentAfterOne m).toList := by
        unfold deliveredBy
        rw [List.range_succ, List.filterMap_append]
        cases h : silentAfterOne m with
        | none => rw [List.filterMap_cons, h]; rfl
        | some b => rw [List.filterMap_cons, h]; rfl
      cases m with
      | zero =>
          rw [hstep]
          exact Or.inr rfl
      | succ k =>
          rw [hstep]
          have hnone : silentAfterOne (k + 1) = none := rfl
          rw [hnone]
          simpa using ih

/-- C2 (refuting the claim on the code): the scan loop evaluates its
timer-expiry check only when the stream yields a reading, so after the
end reading at `t = 0` and silence the loop never exits — at every poll
tick the loop state still has `finished = false`, even though the
completion timer's deadline (15) has long passed; a reading arriving at
`t = 20` would make the very same check fire immediately.  The loop
therefore blocks indefinitely on the stream instead of terminating
within the completion-timer duration after the last end reading. -/
theorem claim2_scan_loop_blocks_on_silent_stream :
    (∀ n, (scanRun (initialScanState routeC2)
        (deliveredBy silentAfterOne n)).finished = false) ∧
    (scanRun (initialScanState routeC2)
        (deliveredBy silentAfterOne 1)).end_timer =
      some SCAN_END_TIMER_DURATION_SEC ∧
    (scanRun (initialScanState routeC2)
        [⟨"E", 0, -50⟩, ⟨"E", 20, -99⟩]).finished = true := by
  refine ⟨?_, by decide, by decide⟩
  intro n
  rcases deliveredBy_silentAfterOne n with h | h <;> rw [h] <;> decide

/-- C8 (cleanup confirmed, cancellation propagation refuted on the code):
on each of the three exit paths of the modelled run — external
cancellation at a stream await, timer-expiry break, stream exhaustion —
both timers are cancelled and the scanner ends up stopped with exactly
one driver stop despite `stop_scan` being called twice (idempotence, last
conjunct); but on the cancellation path the outcome is a normal return of
the Route (`returned = some ...`): `scan_devices` catches the
`CancelledError` and ends the stream, so the cancellation never
propagates to the caller of `scan_loop`. -/
theorem claim8_cleanup_and_swallowed_cancellation :
    ((runScanLoop ⟨true, 0⟩ (initialScanState routeC2) (some 1) 0
        [⟨"E", 0, -50⟩]).exit_path = ExitPath.cancelledDuringAwait ∧
      (runScanLoop ⟨true, 0⟩ (initialScanState routeC2) (some 1) 0
        [⟨"E", 0, -50⟩]).returned =
        some (runScanLoop ⟨true, 0⟩ (initialScanState routeC2) (some 1) 0
          [⟨"E", 0, -50⟩]).state.route ∧
      (runScanLoop ⟨true, 0⟩ (initialScanState routeC2) (some 1) 0
        [⟨"E", 0, -50⟩]).scanner = ⟨false, 1⟩ ∧
      (runScanLoop ⟨true, 0⟩ (initialScanState routeC2) (some 1) 0
        [⟨"E", 0, -50⟩]).state.end_timer = none ∧
      (runScanLoop ⟨true, 0⟩ (initialScanState routeC2) (some 1) 0
        [⟨"E", 0, -50⟩]).state.absolute_end_timer = none) ∧
    ((runScanLoop ⟨true, 0⟩ (initialScanState routeC2) none 0
        [⟨"E", 0, -50⟩, ⟨"E", 20, -99⟩]).exit_path = ExitPath.timerBreak ∧
      (runScanLoop ⟨true, 0⟩ (initialScanState routeC2) none 0
        [⟨"E", 0, -50⟩, ⟨"E", 20, -99⟩]).returned =
        some (runScanLoop ⟨true, 0⟩ (initialScanState routeC2) none 0
          [⟨"E", 0, -50⟩, ⟨"E", 20, -99⟩]).state.route ∧
      (runScanLoop ⟨true, 0⟩ (initialScanState routeC2) none 0
        [⟨"E", 0, -50⟩, ⟨"E", 20, -99⟩]).scanner = ⟨false, 1⟩ ∧
      (runScanLoop ⟨true, 0⟩ (initialScanState routeC2) none 0
        [⟨"E", 0, -50⟩, ⟨"E", 20, -99⟩]).state.end_timer = none ∧
      (runScanLoop ⟨true, 0⟩ (initialScanState routeC2) none 0
        [⟨"E", 0, -50⟩, ⟨"E", 20, -99⟩]).state.absolute_end_timer = none) ∧
    ((runScanLoop ⟨true, 0⟩ (initialScanState routeC2) none 0
        ([] : List (DeviceReading Int))).exit_path = ExitPath.streamEnd ∧
      (runScanLoop ⟨true, 0⟩ (initialScanState routeC2) none 0
        ([] : List (DeviceReading Int))).returned =
        some (runScanLoop ⟨true, 0⟩ (initialScanState routeC2) none 0
          ([] : List (DeviceReading Int))).state.route ∧
      (runScanLoop ⟨true, 0⟩ (initialScanState routeC2) none 0
        ([] : List (DeviceReading Int))).scanner = ⟨false, 1⟩) ∧
    stop_scan (stop_scan ⟨true, 0⟩) = stop_scan ⟨true, 0⟩ := by
  decide

end BRT
